import Mathlib

/-!
Shallow embedding of the Tidepool chrome-uploader reconciliation core:
the Tandem pump simulator (events, basal segment closing, finalBasal,
getEvents filtering) and the timezone offset resolver
(lib/TimezoneOffsetUtil.js), plus the parts of the Insulet simulator that
are exercised by its test suite but whose source is not part of this
snapshot (those are modelled from the specification and marked as such).

Modelling conventions:
- JS ISO-8601 timestamp strings are modelled as integers (milliseconds
  since the epoch).  The source compares timestamps both as strings
  (`currTimestamp > e.time`) and numerically (`Date.parse(a) - Date.parse(b)`);
  for same-format UTC ISO strings the two orders coincide, so a single
  integer field is faithful.
- Insulin amounts and rates are rationals.
- A thrown JS exception is an `Except.error`; because every throw in the
  source happens before any mutation, the error carries the state as the
  caller observes it at the moment of the throw (unchanged).
- Builder objects (`with_duration`, `isAssigned`, `done`) are modelled by
  an `Option` duration field; `done()` is the identity on values.
- Fields that never influence the behaviour under study (deviceId,
  deviceTime, payloads, the transient `index` used only for sorting and
  deleted in `getEvents`) are elided.
-/

/-- Insertion of `a` into `l` before the first element with a key not
below the key of `a` (the inner step of the key-based sort that models
lodash `_.sortBy`). -/
def orderedInsertBy (f : α → Int) (a : α) : List α → List α
| [] => [a]
| b :: l => if f a ≤ f b then a :: b :: l else b :: orderedInsertBy f a l

/-- Key-based insertion sort, modelling lodash `_.sortBy(l, f)` (ascending
by `f`).  Only the multiset of elements is relied on by the theorems, so
the difference in tie-breaking between the two algorithms is immaterial. -/
def sortListBy (f : α → Int) : List α → List α :=
List.foldr (orderedInsertBy f) []

namespace Tandem

/-- Delivery kinds of a basal segment as the simulator distinguishes them
(the source compares the `deliveryType` string against `'scheduled'` and
`'temp'`; `suspend` is the remaining kind produced by the driver). -/
inductive DeliveryType where
| scheduled
| temp
| suspend
deriving DecidableEq, Repr

/-- The value fields of a basal delivery segment (everything except the
`previous` back-reference). -/
structure BasalData where
time : Int
deliveryType : DeliveryType
rate : Rat
duration : Option Int
scheduleName : Option String
annotations : List String
deriving DecidableEq, Repr

/-- A basal event as a JS object: its data fields plus an optional
`previous` property, which may in principle nest arbitrarily (the code is
what keeps the nesting shallow, not the type). -/
inductive BasalEvt where
| base (data : BasalData)
| withPrev (data : BasalData) (p : BasalEvt)
deriving DecidableEq, Repr

namespace BasalEvt

/-- The value fields of a basal event. -/
def data : BasalEvt → BasalData
| base d => d
| withPrev d _ => d

/-- The `previous` property, if present. -/
def previous : BasalEvt → Option BasalEvt
| base _ => none
| withPrev _ p => some p

/-- JS `event.previous = p` (overwrites any existing `previous`). -/
def setPrevious (e : BasalEvt) (p : BasalEvt) : BasalEvt :=
withPrev e.data p

/-- Lodash `_.omit(e, 'previous')`: a value copy with `previous` stripped. -/
def omitPrevious (e : BasalEvt) : BasalEvt :=
base e.data

/-- Rebuild the event with its data fields mapped, keeping `previous`. -/
def mapData (f : BasalData → BasalData) : BasalEvt → BasalEvt
| base d => base (f d)
| withPrev d p => withPrev (f d) p

/-- Builder `with_duration(d)` / direct `duration` assignment. -/
def withDuration (e : BasalEvt) (d : Int) : BasalEvt :=
e.mapData (fun dt => { dt with duration := some d })

/-- Builder `isAssigned('duration')`. -/
def isAssignedDuration (e : BasalEvt) : Bool :=
e.data.duration.isSome

/-- The annotation registry's `annotateEvent`: append an advisory code. -/
def annotateEvent (e : BasalEvt) (code : String) : BasalEvt :=
e.mapData (fun dt => { dt with annotations := dt.annotations ++ [code] })

end BasalEvt

/-- The value fields of a bolus record (also used for the bolus embedded in
a wizard record). -/
structure BolusData where
time : Int
normal : Option Rat
extended : Option Rat
duration : Option Int
expectedNormal : Option Rat
expectedExtended : Option Rat
expectedDuration : Option Int
deriving DecidableEq, Repr

/-- Canonical events accumulated by the simulator, one constructor per
ingestion method of the source.  Simple pass-through families carry only
the timestamp, the only field of theirs the simulator reads. -/
inductive Event where
| basal (b : BasalEvt)
| bolus (b : BolusData)
| wizard (time : Int) (bolus : Option BolusData)
| alarm (time : Int)
| changeDeviceTime (time : Int)
| changeReservoir (time : Int)
| resume (time : Int)
| pumpSettings (time : Int)
| smbg (time : Int)
| suspend (time : Int)
deriving DecidableEq, Repr

/-- The `time` field every event carries. -/
def Event.time : Event → Int
| basal b => b.data.time
| bolus b => b.time
| wizard t _ => t
| alarm t => t
| changeDeviceTime t => t
| changeReservoir t => t
| resume t => t
| pumpSettings t => t
| smbg t => t
| suspend t => t

/-- The simulator's closure state: the accumulated `events` array, the
open basal segment `currBasal` and the ordering watermark `currTimestamp`. -/
structure SimState where
events : List Event
currBasal : Option BasalEvt
currTimestamp : Option Int
deriving DecidableEq, Repr

/-- The fresh state produced by `make`. -/
def simInit : SimState :=
{ events := [], currBasal := none, currTimestamp := none }

/-- The message of the ordering exception (the source interpolates the
offending record; the constant prefix suffices to identify the error). -/
def orderingMsg : String := "Timestamps must be in order."

/-- Source `ensureTimestamp(e)`: throw if the watermark is strictly later
than the new record's time, otherwise advance the watermark.  A JS throw
leaves the closure state untouched, so the error carries the input state. -/
def ensureTimestamp (s : SimState) (t : Int) : Except (String × SimState) SimState :=
match s.currTimestamp with
| some ct => if t < ct then .error (orderingMsg, s) else .ok { s with currTimestamp := some t }
| none => .ok { s with currTimestamp := some t }

/-- Source `simpleSimulate(e)`: check ordering, then append. -/
def simpleSimulate (s : SimState) (e : Event) : Except (String × SimState) SimState :=
(ensureTimestamp s e.time).map (fun s1 => { s1 with events := s1.events ++ [e] })

/-- Source `basal(event)`: check ordering; if a segment is open and its
time differs from the new one, give it its inferred duration when none was
declared, record it (stripped of its own `previous`) as the new segment's
`previous` and emit it; in every case the new event becomes the open
segment.  Same-time arrivals skip the closing entirely. -/
def basal (s : SimState) (event : BasalEvt) : Except (String × SimState) SimState :=
(ensureTimestamp s event.data.time).map (fun s1 =>
  match s1.currBasal with
  | some cb =>
    if cb.data.time ≠ event.data.time then
      let closed := if cb.isAssignedDuration then cb
        else cb.withDuration (event.data.time - cb.data.time)
      { s1 with
        events := s1.events ++ [Event.basal closed],
        currBasal := some (event.setPrevious closed.omitPrevious) }
    else { s1 with currBasal := some event }
  | none => { s1 with currBasal := some event })

/-- One entry of a basal rate schedule. -/
structure ScheduleEntry where
start : Int
rate : Rat
deriving DecidableEq, Repr

/-- The pump settings optionally supplied to `make` via `config`. -/
structure Settings where
activeSchedule : String
basalSchedules : List (String × List ScheduleEntry)
deriving DecidableEq, Repr

/-- Milliseconds in a day. -/
def msPerDay : Int := 86400000

/-- Modelled from the spec: `common.finalScheduledBasal` of
commonSimulations.js, which is not part of this source snapshot (§4.2 of
the spec).  Locate the schedule entry with the greatest start not above
the segment's time of day; the inferred duration runs to the next entry's
start (wrapping to the next day after the last entry); annotate with a
vendor-prefixed off-schedule code when the rate or schedule name disagrees
with the settings, and with the vendor-prefixed fabricated code when the
duration had to be fabricated. -/
def finalScheduledBasal (cb : BasalEvt) (st : Settings) (vendor : String) : BasalEvt :=
match (st.basalSchedules.find? (fun p => p.1 = st.activeSchedule)).map Prod.snd with
| none => (cb.withDuration 0).annotateEvent "basal/unknown-duration"
| some [] => (cb.withDuration 0).annotateEvent "basal/unknown-duration"
| some (e0 :: es) =>
  let entries := e0 :: es
  let tod := cb.data.time % msPerDay
  let matched := ((entries.filter (fun en => en.start ≤ tod)).getLast?).getD (entries.getLast (by simp [entries]))
  let nextStart := match entries.find? (fun en => matched.start < en.start) with
    | some en => en.start
    | none => e0.start + msPerDay
  let fabricated := ¬ cb.isAssignedDuration
  let withDur := if cb.isAssignedDuration then cb else cb.withDuration (nextStart - tod)
  let offSchedule := cb.data.rate ≠ matched.rate ∨ cb.data.scheduleName ≠ some st.activeSchedule
  if offSchedule then
    (withDur.annotateEvent (vendor ++ "/basal/off-schedule-rate")).annotateEvent
      (vendor ++ "/basal/fabricated-from-schedule")
  else if fabricated then
    withDur.annotateEvent (vendor ++ "/basal/fabricated-from-schedule")
  else withDur

/-- Source `finalBasal()`: finalize the still-open segment at end of
stream by delivery kind and emit it.  The open slot keeps the finalized
value (the source never clears `currBasal`). -/
def finalBasal (settings : Option Settings) (s : SimState) : SimState :=
match s.currBasal with
| none => s
| some cb =>
  let fin :=
    if cb.data.deliveryType ≠ .scheduled then
      if cb.data.deliveryType = .temp then cb
      else if ¬ cb.isAssignedDuration then
        (cb.withDuration 0).annotateEvent "basal/unknown-duration"
      else cb
    else match settings with
      | some st => finalScheduledBasal cb st "tandem"
      | none => (cb.withDuration 0).annotateEvent "basal/unknown-duration"
  { s with events := s.events ++ [Event.basal fin], currBasal := some fin }

/-- JS truthiness test `!x` for an optional numeric field: true when the
field is absent or equal to zero. -/
def jsFalsy : Option Rat → Bool
| none => true
| some x => x = 0

/-- The predicate of the filter inside the source's `getEvents`: drop a
bolus whose `normal === 0` with a falsy `expectedNormal`, and a wizard
whose embedded bolus satisfies the same test; keep everything else. -/
def keepEvent : Event → Bool
| .bolus b => ¬ (b.normal = some 0 ∧ jsFalsy b.expectedNormal)
| .wizard _ bol =>
  match bol with
  | some b => ¬ (b.normal = some 0 ∧ jsFalsy b.expectedNormal)
  | none => true
| _ => true

/-- Source `getEvents()`: filter out the zero-volume boluses, then sort the
remainder by time.  (The source also deletes the transient `index` field
here; the model carries no such field.) -/
def getEvents (events : List Event) : List Event :=
sortListBy Event.time (events.filter keepEvent)

/-- The ingestion operations the simulator object exposes, one constructor
per method, each carrying the payload fields the method reads. -/
inductive Op where
| alarm (t : Int)
| basal (b : BasalEvt)
| bolus (b : BolusData)
| changeDeviceTime (t : Int)
| changeReservoir (t : Int)
| resume (t : Int)
| pumpSettings (t : Int)
| smbg (t : Int)
| suspend (t : Int)
| wizard (t : Int) (bolus : Option BolusData)
deriving DecidableEq, Repr

/-- The timestamp an operation's record carries. -/
def Op.time : Op → Int
| alarm t => t
| basal b => b.data.time
| bolus b => b.time
| changeDeviceTime t => t
| changeReservoir t => t
| resume t => t
| pumpSettings t => t
| smbg t => t
| suspend t => t
| wizard t _ => t

/-- Dispatch one ingestion call on the simulator, mirroring the source's
method table: `basal` has its own logic, everything else is
`simpleSimulate`. -/
def applyOp (s : SimState) : Op → Except (String × SimState) SimState
| .alarm t => simpleSimulate s (.alarm t)
| .basal b => basal s b
| .bolus b => simpleSimulate s (.bolus b)
| .changeDeviceTime t => simpleSimulate s (.changeDeviceTime t)
| .changeReservoir t => simpleSimulate s (.changeReservoir t)
| .resume t => simpleSimulate s (.resume t)
| .pumpSettings t => simpleSimulate s (.pumpSettings t)
| .smbg t => simpleSimulate s (.smbg t)
| .suspend t => simpleSimulate s (.suspend t)
| .wizard t b => simpleSimulate s (.wizard t b)

/-- Run a sequence of ingestion calls; the first thrown exception
propagates (carrying the state at the throw). -/
def runOps (s : SimState) : List Op → Except (String × SimState) SimState
| [] => .ok s
| op :: ops => (applyOp s op).bind (fun s1 => runOps s1 ops)

/-- A basal event whose `previous`, when present, carries no `previous` of
its own (back-reference depth at most one). -/
def BasalEvt.flatPrev : BasalEvt → Bool
| .base _ => true
| .withPrev _ (.base _) => true
| .withPrev _ (.withPrev _ _) => false

/-- The depth-at-most-one property lifted to canonical events (only basal
events carry a `previous` in this simulator). -/
def Event.flatPrev : Event → Bool
| .basal b => b.flatPrev
| _ => true

/-- Device-sourced input records carry no `previous` property; only the
simulator attaches one. -/
def Op.inputPrevFree : Op → Bool
| .basal b => b.previous.isNone
| _ => true

/-- The depth-at-most-one invariant over the whole simulator state: it
holds of every accumulated event and of the open segment. -/
def PrevInvariant (s : SimState) : Prop :=
(∀ e ∈ s.events, e.flatPrev = true) ∧ (∀ cb, s.currBasal = some cb → cb.flatPrev = true)

/-- Concrete fixture: a scheduled segment with no declared duration, no
schedule name and no annotations, as the driver builds them. -/
def mkSched (t : Int) (r : Rat) : BasalEvt :=
.base { time := t, deliveryType := .scheduled, rate := r, duration := none,
        scheduleName := none, annotations := [] }

/-- Concrete fixture: a suspend segment with rate 0 and the given declared
duration. -/
def mkSuspend (t : Int) (d : Option Int) : BasalEvt :=
.base { time := t, deliveryType := .suspend, rate := 0, duration := d,
        scheduleName := none, annotations := [] }

/-- Concrete fixture: a bolus with the given immediate volume and
`expectedNormal` amendment and nothing else declared. -/
def mkBolus (t : Int) (n : Option Rat) (en : Option Rat) : BolusData :=
{ time := t, normal := n, extended := none, duration := none,
  expectedNormal := en, expectedExtended := none, expectedDuration := none }

/-- Concrete fixture: a simulator state with no accumulated events, the
given open segment and the given watermark. -/
def mkState (cb : Option BasalEvt) (ct : Option Int) : SimState :=
{ events := [], currBasal := cb, currTimestamp := ct }

/-- Specification-side statement of the amended output filter: an event is
kept unless it is a bolus — or a wizard with an embedded bolus — whose
declared immediate volume is zero and whose `expectedNormal` amendment is
absent or zero. -/
def keptBySpec : Event → Bool
| .bolus b => ¬ (b.normal = some 0 ∧ (b.expectedNormal = none ∨ b.expectedNormal = some 0))
| .wizard _ (some b) => ¬ (b.normal = some 0 ∧ (b.expectedNormal = none ∨ b.expectedNormal = some 0))
| _ => true

end Tandem

namespace Insulet

/-- A suspend status record (the fields the anchoring logic reads). -/
structure SuspendRec where
time : Int
reason : String
deriving DecidableEq, Repr

/-- A resume status record as emitted: its time plus the optional
`previous` back-reference to the suspend it resolves. -/
structure ResumeRec where
time : Int
previous : Option SuspendRec
deriving DecidableEq, Repr

/-- The suspend/resume events of the Insulet simulator's output. -/
inductive StatusEvent where
| suspend (r : SuspendRec)
| resume (r : ResumeRec)
deriving DecidableEq, Repr

/-- The suspend/resume slice of the Insulet simulator's state: the output
list and the pending-suspend anchor. -/
structure StatusState where
events : List StatusEvent
pendingSuspend : Option SuspendRec
deriving DecidableEq, Repr

/-- Modelled from the spec: `ingestSuspend` of the Insulet simulator
(insuletSimulator.js is not part of this snapshot; spec §4.1). Pass the
suspend through; if no suspend is pending, it becomes the anchor, and
later suspends of the same run do not replace it. -/
def ingestSuspend (s : StatusState) (r : SuspendRec) : StatusState :=
{ events := s.events ++ [.suspend r],
  pendingSuspend := match s.pendingSuspend with
    | some p => some p
    | none => some r }

/-- Modelled from the spec: `ingestResume` of the Insulet simulator
(spec §4.1). If a suspend is pending, attach it as `previous` on the
resume and clear the anchor; emit. -/
def ingestResume (s : StatusState) (t : Int) : StatusState :=
{ events := s.events ++ [.resume ⟨t, s.pendingSuspend⟩],
  pendingSuspend := none }

/-- Modelled from the spec: `ingestPodActivation` of the Insulet simulator
(spec §4.1). Fabricates and emits a resume at the activation time,
anchored to the pending suspend exactly as `ingestResume`, then clears
the anchor. -/
def ingestPodActivation (s : StatusState) (t : Int) : StatusState :=
{ events := s.events ++ [.resume ⟨t, s.pendingSuspend⟩],
  pendingSuspend := none }

/-- The delivery phases of a dose, in settlement order. -/
inductive Phase where
| immediate
| extended
deriving DecidableEq, Repr

/-- Modelled from the spec: the outstanding phases of a freshly ingested
dose (spec §4.3) — the immediate phase when an immediate volume is
declared, then the extended phase when an extended volume is declared. -/
def phasesOf (b : Tandem.BolusData) : List Phase :=
(if b.normal.isSome then [Phase.immediate] else []) ++
  (if b.extended.isSome then [Phase.extended] else [])

/-- The termination-matcher slice of the Insulet simulator's state: the
emitted doses and, for the most recent one, its position and outstanding
phases. -/
structure MatcherState where
events : List Tandem.BolusData
mostRecent : Option (Nat × List Phase)
deriving DecidableEq, Repr

/-- The empty matcher state. -/
def matcherInit : MatcherState := { events := [], mostRecent := none }

/-- Replace the element at a position of a list by the image under `f`. -/
def listModifyAt (f : α → α) : List α → Nat → List α
| [], _ => []
| a :: l, 0 => f a :: l
| a :: l, n + 1 => a :: listModifyAt f l n

/-- Modelled from the spec: `ingestBolus` of the Insulet simulator
(spec §4.1/§4.3): pass the dose through and register it, with its
outstanding phases, for the termination matcher. -/
def ingestBolus (m : MatcherState) (b : Tandem.BolusData) : MatcherState :=
{ events := m.events ++ [b], mostRecent := some (m.events.length, phasesOf b) }

/-- Modelled from the spec: the amendment a termination notice applies to
one phase of a dose (spec §4.3): immediate phase — `expectedNormal` is the
declared immediate volume plus the missed volume; extended phase —
`expectedExtended` is the declared extended volume plus the missed volume
and `expectedDuration` the declared duration plus the remaining one. -/
def amendPhase (ph : Phase) (missed : Rat) (durationLeft : Int)
    (b : Tandem.BolusData) : Tandem.BolusData :=
match ph with
| .immediate => { b with expectedNormal := some (b.normal.getD 0 + missed) }
| .extended =>
  { b with
    expectedExtended := some (b.extended.getD 0 + missed),
    expectedDuration := some (b.duration.getD 0 + durationLeft) }

/-- Modelled from the spec: `ingestTermination` of the Insulet simulator
(spec §4.3): apply the notice to the next outstanding phase of the most
recent dose, amending it in place, and mark the phase settled.  A notice
with no outstanding phase is a no-op (spec §9 leaves it open). -/
def ingestTermination (m : MatcherState) (missed : Rat) (durationLeft : Int) :
    MatcherState :=
match m.mostRecent with
| some (i, ph :: rest) =>
  { events := listModifyAt (amendPhase ph missed durationLeft) m.events i,
    mostRecent := some (i, rest) }
| some (_, []) => m
| none => m

/-- Concrete fixture: the combined immediate+extended dose of the
termination scenario — immediate volume 1.3, extended volume 1.4,
declared duration 0. -/
def dualBolus : Tandem.BolusData :=
{ time := 0, normal := some (13/10), extended := some (14/10), duration := some 0,
  expectedNormal := none, expectedExtended := none, expectedDuration := none }

end Insulet

namespace TZ

/-!
Embedding of `lib/TimezoneOffsetUtil.js`.  Timestamps are rationals
(milliseconds); offsets are integers (minutes).  The two sundial results
that depend on the timezone database — `applyTimezone` on the most recent
change and `getOffsetFromZone` at its time — are taken as parameters
(`firstTime`, `firstOffset`); `sundial.dateDifference(from, to, 'minutes')`
is carried on the change record as `deltaMinutes`.
-/

/-- A pump-clock-change record as the resolver consumes it: its monotone
sequence index, its device-local timestamp (`jsDate`) and the clock delta
in minutes between the change's `from` and `to` local times as computed by
the date library. -/
structure TimeChange where
index : Int
jsDate : Rat
deltaMinutes : Rat
deriving DecidableEq, Repr

/-- JS `Math.round`: the integer nearest to `x`, halves rounding toward
positive infinity — that is, `⌊x + 1/2⌋`, computed here on the reduced
fraction with floor division. -/
def jsRound (x : Rat) : Int :=
Int.fdiv (2 * x.num + (x.den : Int)) (2 * (x.den : Int))

/-- Rounding to the nearest multiple of a positive quantum of minutes,
with the JS `Math.round` tie rule. -/
def roundToQuantum (q : Int) (x : Rat) : Int :=
jsRound (x / (q : Rat)) * q

/-- Source `findOffsetDifference(event)`: the clock delta rounded to the
nearest 15-minute quantum. -/
def findOffsetDifference (e : TimeChange) : Int :=
roundToQuantum 15 e.deltaMinutes

/-- The defensive bound of `adjustCurrentOffset`: the widest possible
span between timezone offsets, in minutes. -/
def MAX_DIFF : Int := 1560

/-- Source `adjustCurrentOffset(event)`: when the 15-minute-rounded delta
is within the defensive bound, add the clock delta rounded to the nearest
60-minute quantum to the accumulated offset; otherwise leave it alone. -/
def adjustCurrentOffset (offset : Int) (e : TimeChange) : Int :=
if |findOffsetDifference e| ≤ MAX_DIFF then
  offset + roundToQuantum 60 e.deltaMinutes
else offset

/-- Source `sundial.applyOffset(d, off)`: shift a timestamp by a number of
minutes. -/
def applyOffset (d : Rat) (off : Int) : Rat :=
d + (off : Rat) * 60000

/-- One offset interval as the resolver builds them (`stop` models the
source's `end` field, a reserved word here). -/
structure OffsetInterval where
start : Option Rat
stop : Option Rat
startIndex : Option Int
endIndex : Option Int
timezoneOffset : Int
deriving DecidableEq, Repr

/-- The loop body of the interval construction for the second and later
(older) changes of the descending-sorted list, followed by the final
open-ended interval push: `currentOffset`, `currentIndex` and the
previous change's resolved time thread through exactly as the source's
mutable variables do. -/
def buildLoop (currentOffset : Int) (currentIndex : Int) (prevTime : Rat) :
    List TimeChange → List OffsetInterval
| [] =>
  [{ start := none, stop := some prevTime, startIndex := some currentIndex,
     endIndex := none, timezoneOffset := currentOffset }]
| c :: cs =>
  let t := applyOffset c.jsDate (-currentOffset)
  { start := some t, stop := some prevTime, startIndex := some currentIndex,
    endIndex := some c.index, timezoneOffset := currentOffset }
    :: buildLoop (adjustCurrentOffset currentOffset c) c.index t cs

/-- The full interval construction of the resolver's constructor: sort the
changes by index ascending and reverse (most recent first); the first
change's resolved time and offset come from the timezone database
(`firstTime`, `firstOffset`); then the loop.  No changes, no intervals. -/
def buildIntervals (mostRecent : Rat) (firstTime : Rat) (firstOffset : Int)
    (changes : List TimeChange) : List OffsetInterval :=
match (sortListBy (fun c => c.index) changes).reverse with
| [] => []
| c0 :: rest =>
  { start := some firstTime, stop := some mostRecent, startIndex := none,
    endIndex := some c0.index, timezoneOffset := firstOffset }
    :: buildLoop (adjustCurrentOffset firstOffset c0) c0.index firstTime rest

/-- The index-based matching test of `lookup` (the branch taken when the
queried record carries a sequence index): strict bounds on whichever of
`startIndex`/`endIndex` are present; an interval with neither never
matches. -/
def matchesIndex (iv : OffsetInterval) (idx : Int) : Bool :=
match iv.startIndex, iv.endIndex with
| some si, some ei => idx < si ∧ ei < idx
| none, some ei => ei < idx
| some si, none => idx < si
| none, none => false

/-- Source `lookup(datetime, index)` restricted to the `index !== null`
branch with clock changes present (`offsetIntervals` nonempty): scan the
intervals in construction order and return the UTC time (local time
shifted by the negative of the offset) and offset of the first match;
`undefined` — here `none` — when nothing matches. -/
def lookupWithIndex (intervals : List OffsetInterval) (datetime : Rat)
    (idx : Int) : Option (Rat × Int) :=
match intervals.find? (fun iv => matchesIndex iv idx) with
| some iv => some (applyOffset datetime (-iv.timezoneOffset), iv.timezoneOffset)
| none => none

end TZ

/-! ## Theorems -/

namespace Tandem

theorem ensureTimestamp_err (s : SimState) (ct t : Int) (h : s.currTimestamp = some ct)
    (hlt : t < ct) : ensureTimestamp s t = .error (orderingMsg, s) := by
simp [ensureTimestamp, h, hlt]

theorem ensureTimestamp_ok (s : SimState) (ct t : Int) (h : s.currTimestamp = some ct)
    (hle : ct ≤ t) : ensureTimestamp s t = .ok { s with currTimestamp := some t } := by
simp [ensureTimestamp, h, not_lt.mpr hle]

theorem simpleSimulate_err (s : SimState) (ct : Int) (e : Event)
    (h : s.currTimestamp = some ct) (hlt : e.time < ct) :
    simpleSimulate s e = .error (orderingMsg, s) := by
unfold simpleSimulate
rw [ensureTimestamp_err s ct e.time h hlt]
rfl

theorem simpleSimulate_ok (s : SimState) (ct : Int) (e : Event)
    (h : s.currTimestamp = some ct) (hle : ct ≤ e.time) :
    simpleSimulate s e =
      .ok { s with events := s.events ++ [e], currTimestamp := some e.time } := by
unfold simpleSimulate
rw [ensureTimestamp_ok s ct e.time h hle]
rfl

theorem basal_err (s : SimState) (ct : Int) (b : BasalEvt)
    (h : s.currTimestamp = some ct) (hlt : b.data.time < ct) :
    basal s b = .error (orderingMsg, s) := by
unfold basal
rw [ensureTimestamp_err s ct b.data.time h hlt]
rfl

theorem basal_ok_exists (s : SimState) (ct : Int) (b : BasalEvt)
    (h : s.currTimestamp = some ct) (hle : ct ≤ b.data.time) :
    ∃ s1, basal s b = .ok s1 ∧ s1.currTimestamp = some b.data.time := by
unfold basal
rw [ensureTimestamp_ok s ct b.data.time h hle]
cases hc : s.currBasal with
| none =>
  simp only [Except.map, hc]
  exact ⟨_, rfl, rfl⟩
| some cb =>
  by_cases hne : cb.data.time ≠ b.data.time
  · simp only [Except.map, hc, if_pos hne]
    exact ⟨_, rfl, rfl⟩
  · simp only [Except.map, hc, if_neg hne]
    exact ⟨_, rfl, rfl⟩

/-- C1: for each of the ten ingestion operations (alarm, basal, bolus,
changeDeviceTime, changeReservoir, resume, pumpSettings, smbg, suspend,
wizard), a record timestamped strictly before the previously ingested one
makes the operation throw the ordering error with the simulator state —
events list included — unchanged; otherwise the operation succeeds and the
recorded last-timestamp becomes the new record's time. -/
theorem claim_C1 (s : SimState) (op : Op) (ct : Int) (h : s.currTimestamp = some ct) :
    (op.time < ct → applyOp s op = .error (orderingMsg, s)) ∧
    (ct ≤ op.time →
      ∃ s1, applyOp s op = .ok s1 ∧ s1.currTimestamp = some op.time) := by
constructor
· intro hlt
  cases op with
  | basal b => exact basal_err s ct b h hlt
  | alarm t => exact simpleSimulate_err s ct (.alarm t) h hlt
  | bolus b => exact simpleSimulate_err s ct (.bolus b) h hlt
  | changeDeviceTime t => exact simpleSimulate_err s ct (.changeDeviceTime t) h hlt
  | changeReservoir t => exact simpleSimulate_err s ct (.changeReservoir t) h hlt
  | resume t => exact simpleSimulate_err s ct (.resume t) h hlt
  | pumpSettings t => exact simpleSimulate_err s ct (.pumpSettings t) h hlt
  | smbg t => exact simpleSimulate_err s ct (.smbg t) h hlt
  | suspend t => exact simpleSimulate_err s ct (.suspend t) h hlt
  | wizard t b => exact simpleSimulate_err s ct (.wizard t b) h hlt
· intro hle
  cases op with
  | basal b => exact basal_ok_exists s ct b h hle
  | alarm t => exact ⟨_, simpleSimulate_ok s ct (.alarm t) h hle, rfl⟩
  | bolus b => exact ⟨_, simpleSimulate_ok s ct (.bolus b) h hle, rfl⟩
  | changeDeviceTime t => exact ⟨_, simpleSimulate_ok s ct (.changeDeviceTime t) h hle, rfl⟩
  | changeReservoir t => exact ⟨_, simpleSimulate_ok s ct (.changeReservoir t) h hle, rfl⟩
  | resume t => exact ⟨_, simpleSimulate_ok s ct (.resume t) h hle, rfl⟩
  | pumpSettings t => exact ⟨_, simpleSimulate_ok s ct (.pumpSettings t) h hle, rfl⟩
  | smbg t => exact ⟨_, simpleSimulate_ok s ct (.smbg t) h hle, rfl⟩
  | suspend t => exact ⟨_, simpleSimulate_ok s ct (.suspend t) h hle, rfl⟩
  | wizard t b => exact ⟨_, simpleSimulate_ok s ct (.wizard t b) h hle, rfl⟩

/-- Witness for C1 at a concrete state with watermark 100: ingesting an
smbg at time 50 throws with the state unchanged, and ingesting one at
time 200 succeeds, advancing the watermark to 200. -/
theorem claim_C1_witness :
    applyOp { events := [], currBasal := none, currTimestamp := some 100 } (.smbg 50)
        = .error (orderingMsg,
            { events := [], currBasal := none, currTimestamp := some 100 }) ∧
      ∃ s1,
        applyOp { events := [], currBasal := none, currTimestamp := some 100 } (.smbg 200)
            = .ok s1 ∧
          s1.currTimestamp = some 200 :=
⟨(claim_C1 { events := [], currBasal := none, currTimestamp := some 100 }
    (.smbg 50) 100 rfl).1 (by decide),
  (claim_C1 { events := [], currBasal := none, currTimestamp := some 100 }
    (.smbg 200) 100 rfl).2 (by decide)⟩

/-- C2: when a second, later-ordered delivery segment with a distinct time
arrives, the open segment is closed and emitted; its duration becomes the
time delta to the successor exactly when no duration was declared, a
declared duration is left untouched (the closed segment is emitted
verbatim), and the newly opened segment's duration is whatever the input
carried — arrival never assigns it, only `finalBasal` does. -/
theorem claim_C2 (s : SimState) (ct : Int) (cb b : BasalEvt)
    (hts : s.currTimestamp = some ct) (hle : ct ≤ b.data.time)
    (hopen : s.currBasal = some cb) (hne : cb.data.time ≠ b.data.time) :
    ∃ closed nb,
      basal s b = .ok { events := s.events ++ [Event.basal closed],
                        currBasal := some nb,
                        currTimestamp := some b.data.time } ∧
        (cb.data.duration = none →
          closed = cb.withDuration (b.data.time - cb.data.time) ∧
            closed.data.duration = some (b.data.time - cb.data.time)) ∧
        (∀ d, cb.data.duration = some d → closed = cb) ∧
        nb.data.duration = b.data.duration := by
unfold basal
rw [ensureTimestamp_ok s ct b.data.time hts hle]
simp only [Except.map, hopen, if_pos hne]
refine ⟨_, _, rfl, ?_, ?_, ?_⟩
· intro hdur
  have hna : cb.isAssignedDuration = false := by
    simp [BasalEvt.isAssignedDuration, hdur]
  rw [if_neg (by simp [hna])]
  constructor
  · rfl
  · cases cb with
    | base d => simp [BasalEvt.withDuration, BasalEvt.mapData, BasalEvt.data]
    | withPrev d p => simp [BasalEvt.withDuration, BasalEvt.mapData, BasalEvt.data]
· intro d hdur
  have ha : cb.isAssignedDuration = true := by
    simp [BasalEvt.isAssignedDuration, hdur]
  rw [if_pos ha]
· cases b with
  | base d => simp [BasalEvt.setPrevious, BasalEvt.data]
  | withPrev d p => simp [BasalEvt.setPrevious, BasalEvt.data]

/-- Witness for C2: a scheduled segment at time 0 with no declared
duration is closed by a successor at time 3600000 and emitted with
duration 3600000, while the successor keeps its undeclared duration. -/
theorem claim_C2_witness :
    ∃ closed nb,
      basal { events := [], currBasal := some (mkSched 0 (3/4)), currTimestamp := some 0 }
          (mkSched 3600000 (17/20))
        = .ok { events := [Event.basal closed], currBasal := some nb,
                currTimestamp := some (mkSched 3600000 (17/20)).data.time } ∧
        ((mkSched 0 (3/4)).data.duration = none →
          closed = (mkSched 0 (3/4)).withDuration
              ((mkSched 3600000 (17/20)).data.time - (mkSched 0 (3/4)).data.time) ∧
            closed.data.duration
              = some ((mkSched 3600000 (17/20)).data.time - (mkSched 0 (3/4)).data.time)) ∧
        (∀ d, (mkSched 0 (3/4)).data.duration = some d → closed = mkSched 0 (3/4)) ∧
        nb.data.duration = (mkSched 3600000 (17/20)).data.duration :=
claim_C2 _ 0 _ _ rfl (by decide) rfl (by decide)

theorem data_withDuration (e : BasalEvt) (d : Int) :
    (e.withDuration d).data = { e.data with duration := some d } := by
cases e <;> rfl

theorem data_annotateEvent (e : BasalEvt) (c : String) :
    (e.annotateEvent c).data
      = { e.data with annotations := e.data.annotations ++ [c] } := by
cases e <;> rfl

/-- C4 (amended): a delivery segment arriving at the same time as the open
segment is not closed and nothing is emitted — no duration is computed —
but the open-segment slot is overwritten with the newly arrived record
(and the watermark is re-set to its time); only when the arrival is
value-identical to the open segment and the watermark already equals its
time is the state literally as if it had never arrived. -/
theorem claim_C4 (s : SimState) (ct : Int) (cb b : BasalEvt)
    (hts : s.currTimestamp = some ct) (hle : ct ≤ b.data.time)
    (hopen : s.currBasal = some cb) (heq : cb.data.time = b.data.time) :
    basal s b
        = .ok { s with currBasal := some b, currTimestamp := some b.data.time } ∧
      (b = cb → s.currTimestamp = some b.data.time → basal s b = .ok s) := by
have h1 : basal s b
    = .ok { s with currBasal := some b, currTimestamp := some b.data.time } := by
  unfold basal
  rw [ensureTimestamp_ok s ct b.data.time hts hle]
  simp only [Except.map, hopen, heq, ne_eq, not_true_eq_false, if_neg, ite_false]
refine ⟨h1, fun hb hts2 => ?_⟩
rw [h1, ← hts2, hb, ← hopen]

/-- Counterexample to C4 as stated: two scheduled segments share time 1000
but differ in rate; after the second arrives the state is not the state
before its arrival (the open slot now holds the second segment), even
though nothing was closed or emitted. -/
theorem claim_C4_counterexample :
    basal (mkState (some (mkSched 1000 1)) (some 1000)) (mkSched 1000 2)
        ≠ .ok (mkState (some (mkSched 1000 1)) (some 1000)) ∧
      basal (mkState (some (mkSched 1000 1)) (some 1000)) (mkSched 1000 2)
        = .ok (mkState (some (mkSched 1000 2)) (some 1000)) := by
constructor
· intro h
  exact absurd (Except.ok.inj h) (by decide)
· rfl

/-- Witness for C4 at a value-identical duplicate: the slot is overwritten
with the (equal) record and the state is unchanged. -/
theorem claim_C4_witness :
    basal (mkState (some (mkSched 1000 1)) (some 1000)) (mkSched 1000 1)
        = .ok (mkState (some (mkSched 1000 1)) (some 1000)) :=
(claim_C4 (mkState (some (mkSched 1000 1)) (some 1000)) 1000 (mkSched 1000 1)
    (mkSched 1000 1) rfl (by decide) rfl rfl).2 rfl rfl

/-- C5 (amended): `finalBasal` on an open segment emits exactly one event
per call, determined by delivery kind: a temporary segment as-is; a
suspended segment without a declared duration with duration 0 and the
`basal/unknown-duration` code, but a suspended segment with a declared
duration as-is; a scheduled segment with duration 0 and the code when no
settings were supplied, and via the schedule finalizer when they were.
The open-segment slot is not cleared: it retains the finalized segment,
so later calls still act on it. -/
theorem claim_C5 (settings : Option Settings) (s : SimState) (cb : BasalEvt)
    (h : s.currBasal = some cb) :
    ∃ fin,
      (finalBasal settings s).events = s.events ++ [Event.basal fin] ∧
        (finalBasal settings s).currBasal = some fin ∧
        (cb.data.deliveryType = .temp → fin = cb) ∧
        (cb.data.deliveryType = .suspend → cb.data.duration = none →
          fin.data.duration = some 0 ∧
            "basal/unknown-duration" ∈ fin.data.annotations) ∧
        (cb.data.deliveryType = .suspend →
          ∀ d, cb.data.duration = some d → fin = cb) ∧
        (cb.data.deliveryType = .scheduled → settings = none →
          fin.data.duration = some 0 ∧
            "basal/unknown-duration" ∈ fin.data.annotations) ∧
        (∀ st, cb.data.deliveryType = .scheduled → settings = some st →
          fin = finalScheduledBasal cb st "tandem") := by
unfold finalBasal
rw [h]
refine ⟨_, rfl, rfl, ?_, ?_, ?_, ?_, ?_⟩
· intro ht
  simp [ht]
· intro ht hdur
  simp [ht, BasalEvt.isAssignedDuration, hdur, data_withDuration, data_annotateEvent]
· intro ht d hdur
  simp [ht, BasalEvt.isAssignedDuration, hdur]
· intro ht hst
  subst hst
  simp [ht, data_withDuration, data_annotateEvent]
· intro st ht hst
  subst hst
  simp [ht]

/-- Counterexample to C5 as stated, refuting two of its conjuncts: a
suspended open segment with declared duration 5 is emitted by `finalBasal`
verbatim — duration 5, no annotation — not with duration 0 and
`basal/unknown-duration`; and the open-segment slot *is* still acted upon
afterwards: `currBasal` keeps the finalized segment, so a second
`finalBasal` call emits it a second time. -/
theorem claim_C5_counterexample :
    (finalBasal none (mkState (some (mkSuspend 1000 (some 5))) (some 1000))).events
        = [Event.basal (mkSuspend 1000 (some 5))] ∧
      (mkSuspend 1000 (some 5)).data.duration ≠ some 0 ∧
      (mkSuspend 1000 (some 5)).data.annotations = [] ∧
      (finalBasal none (finalBasal none
            (mkState (some (mkSuspend 1000 (some 5))) (some 1000)))).events
        = [Event.basal (mkSuspend 1000 (some 5)), Event.basal (mkSuspend 1000 (some 5))] :=
⟨rfl, by decide, rfl, rfl⟩

/-- Witness for C5 at a suspended open segment with no declared duration:
one event is emitted, with duration 0 and the annotation code, and the
slot keeps the finalized segment. -/
theorem claim_C5_witness :
    ∃ fin,
      (finalBasal none (mkState (some (mkSuspend 1000 none)) (some 1000))).events
          = (mkState (some (mkSuspend 1000 none)) (some 1000)).events ++ [Event.basal fin] ∧
        (finalBasal none (mkState (some (mkSuspend 1000 none)) (some 1000))).currBasal
          = some fin ∧
        ((mkSuspend 1000 none).data.deliveryType = .temp → fin = mkSuspend 1000 none) ∧
        ((mkSuspend 1000 none).data.deliveryType = .suspend →
          (mkSuspend 1000 none).data.duration = none →
          fin.data.duration = some 0 ∧
            "basal/unknown-duration" ∈ fin.data.annotations) ∧
        ((mkSuspend 1000 none).data.deliveryType = .suspend →
          ∀ d, (mkSuspend 1000 none).data.duration = some d → fin = mkSuspend 1000 none) ∧
        ((mkSuspend 1000 none).data.deliveryType = .scheduled →
          (none : Option Settings) = none →
          fin.data.duration = some 0 ∧
            "basal/unknown-duration" ∈ fin.data.annotations) ∧
        (∀ st, (mkSuspend 1000 none).data.deliveryType = .scheduled →
          (none : Option Settings) = some st →
          fin = finalScheduledBasal (mkSuspend 1000 none) st "tandem") :=
claim_C5 none (mkState (some (mkSuspend 1000 none)) (some 1000)) (mkSuspend 1000 none) rfl

theorem flatPrev_mapData (f : BasalData → BasalData) (e : BasalEvt) :
    (e.mapData f).flatPrev = e.flatPrev := by
cases e with
| base d => rfl
| withPrev d p => cases p <;> rfl

theorem flatPrev_withDuration (e : BasalEvt) (d : Int) :
    (e.withDuration d).flatPrev = e.flatPrev :=
flatPrev_mapData _ e

theorem flatPrev_annotateEvent (e : BasalEvt) (c : String) :
    (e.annotateEvent c).flatPrev = e.flatPrev :=
flatPrev_mapData _ e

theorem flatPrev_of_prevFree (b : BasalEvt) (hb : b.previous.isNone = true) :
    b.flatPrev = true := by
cases b with
| base d => rfl
| withPrev d p => simp [BasalEvt.previous] at hb

theorem flatPrev_finalScheduledBasal (cb : BasalEvt) (st : Settings) (v : String) :
    (finalScheduledBasal cb st v).flatPrev = cb.flatPrev := by
unfold finalScheduledBasal
cases h1 : (st.basalSchedules.find? (fun p => p.1 = st.activeSchedule)).map Prod.snd with
| none => simp [flatPrev_withDuration, flatPrev_annotateEvent]
| some l =>
  cases l with
  | nil => simp [flatPrev_withDuration, flatPrev_annotateEvent]
  | cons e0 es =>
    simp only []
    split_ifs <;>
      simp [flatPrev_withDuration, flatPrev_annotateEvent]

theorem ensureTimestamp_ok_eq (s : SimState) (t : Int) (s1 : SimState)
    (h : ensureTimestamp s t = .ok s1) : s1 = { s with currTimestamp := some t } := by
unfold ensureTimestamp at h
cases hct : s.currTimestamp with
| none =>
  rw [hct] at h
  exact (Except.ok.inj h).symm
| some ct =>
  rw [hct] at h
  by_cases hlt : t < ct
  · simp [hlt] at h
  · simp only [if_neg hlt] at h
    exact (Except.ok.inj h).symm

theorem prevInvariant_simpleSimulate (s s1 : SimState) (e : Event)
    (hinv : PrevInvariant s) (he : e.flatPrev = true)
    (h : simpleSimulate s e = .ok s1) : PrevInvariant s1 := by
unfold simpleSimulate at h
cases hts : ensureTimestamp s e.time with
| error p =>
  rw [hts] at h
  simp [Except.map] at h
| ok s2 =>
  have h2 := ensureTimestamp_ok_eq s e.time s2 hts
  rw [hts] at h
  simp only [Except.map, Except.ok.injEq] at h
  subst h2
  constructor
  · intro x hx
    rw [← h] at hx
    simp only [List.mem_append, List.mem_singleton] at hx
    rcases hx with hx | rfl
    · exact hinv.1 x hx
    · exact he
  · intro cb hcb
    rw [← h] at hcb
    exact hinv.2 cb hcb

theorem prevInvariant_basal (s s1 : SimState) (b : BasalEvt)
    (hb : b.previous.isNone = true) (hinv : PrevInvariant s)
    (h : basal s b = .ok s1) : PrevInvariant s1 := by
unfold basal at h
cases hts : ensureTimestamp s b.data.time with
| error p =>
  rw [hts] at h
  simp [Except.map] at h
| ok s2 =>
  have h2 := ensureTimestamp_ok_eq s b.data.time s2 hts
  rw [hts] at h
  simp only [Except.map, Except.ok.injEq] at h
  subst h2
  cases hc : s.currBasal with
  | none =>
    simp only [hc] at h
    refine ⟨?_, ?_⟩
    · intro x hx
      rw [← h] at hx
      exact hinv.1 x hx
    · intro cb hcb
      rw [← h] at hcb
      simp only [Option.some.injEq] at hcb
      rw [← hcb]
      exact flatPrev_of_prevFree b hb
  | some cb =>
    simp only [hc] at h
    by_cases hne : cb.data.time ≠ b.data.time
    · rw [if_pos hne] at h
      have hcbflat : cb.flatPrev = true := hinv.2 cb hc
      have hclosed :
          (if cb.isAssignedDuration = true then cb
            else cb.withDuration (b.data.time - cb.data.time)).flatPrev = true := by
        split_ifs
        · exact hcbflat
        · rw [flatPrev_withDuration]
          exact hcbflat
      refine ⟨?_, ?_⟩
      · intro x hx
        rw [← h] at hx
        simp only [List.mem_append, List.mem_singleton] at hx
        rcases hx with hx | rfl
        · exact hinv.1 x hx
        · exact hclosed
      · intro nb hnb
        rw [← h] at hnb
        simp only [Option.some.injEq] at hnb
        rw [← hnb]
        rfl
    · rw [if_neg hne] at h
      refine ⟨?_, ?_⟩
      · intro x hx
        rw [← h] at hx
        exact hinv.1 x hx
      · intro nb hnb
        rw [← h] at hnb
        simp only [Option.some.injEq] at hnb
        rw [← hnb]
        exact flatPrev_of_prevFree b hb

theorem prevInvariant_applyOp (s s1 : SimState) (op : Op)
    (hop : op.inputPrevFree = true) (hinv : PrevInvariant s)
    (h : applyOp s op = .ok s1) : PrevInvariant s1 := by
cases op with
| basal b => exact prevInvariant_basal s s1 b hop hinv h
| alarm t => exact prevInvariant_simpleSimulate s s1 (.alarm t) hinv rfl h
| bolus b => exact prevInvariant_simpleSimulate s s1 (.bolus b) hinv rfl h
| changeDeviceTime t =>
  exact prevInvariant_simpleSimulate s s1 (.changeDeviceTime t) hinv rfl h
| changeReservoir t =>
  exact prevInvariant_simpleSimulate s s1 (.changeReservoir t) hinv rfl h
| resume t => exact prevInvariant_simpleSimulate s s1 (.resume t) hinv rfl h
| pumpSettings t => exact prevInvariant_simpleSimulate s s1 (.pumpSettings t) hinv rfl h
| smbg t => exact prevInvariant_simpleSimulate s s1 (.smbg t) hinv rfl h
| suspend t => exact prevInvariant_simpleSimulate s s1 (.suspend t) hinv rfl h
| wizard t b => exact prevInvariant_simpleSimulate s s1 (.wizard t b) hinv rfl h

theorem prevInvariant_runOps (ops : List Op) (s s1 : SimState)
    (hinv : PrevInvariant s) (hops : ∀ op ∈ ops, op.inputPrevFree = true)
    (h : runOps s ops = .ok s1) : PrevInvariant s1 := by
induction ops generalizing s with
| nil =>
  unfold runOps at h
  rw [← Except.ok.inj h]
  exact hinv
| cons op ops ih =>
  unfold runOps at h
  cases happ : applyOp s op with
  | error p =>
    rw [happ] at h
    simp [Except.bind] at h
  | ok s2 =>
    rw [happ] at h
    simp only [Except.bind] at h
    exact ih s2
      (prevInvariant_applyOp s s2 op (hops op (List.mem_cons_self op ops)) hinv happ)
      (fun o ho => hops o (List.mem_cons_of_mem op ho)) h

theorem prevInvariant_finalBasal (settings : Option Settings) (s : SimState)
    (hinv : PrevInvariant s) : PrevInvariant (finalBasal settings s) := by
unfold finalBasal
cases hc : s.currBasal with
| none => exact hinv
| some cb =>
  have hcbflat : cb.flatPrev = true := hinv.2 cb hc
  have hfin :
      (if cb.data.deliveryType ≠ .scheduled then
        if cb.data.deliveryType = .temp then cb
        else if ¬ cb.isAssignedDuration then
          (cb.withDuration 0).annotateEvent "basal/unknown-duration"
        else cb
      else match settings with
        | some st => finalScheduledBasal cb st "tandem"
        | none =>
          (cb.withDuration 0).annotateEvent "basal/unknown-duration").flatPrev
        = true := by
    split_ifs <;>
      first
        | exact hcbflat
        | (rw [flatPrev_annotateEvent, flatPrev_withDuration]; exact hcbflat)
        | (cases settings with
            | none =>
              rw [flatPrev_annotateEvent, flatPrev_withDuration]
              exact hcbflat
            | some st =>
              rw [flatPrev_finalScheduledBasal]
              exact hcbflat)
  refine ⟨?_, ?_⟩
  · intro x hx
    simp only [List.mem_append, List.mem_singleton] at hx
    rcases hx with hx | rfl
    · exact hinv.1 x hx
    · exact hfin
  · intro nb hnb
    simp only [Option.some.injEq] at hnb
    rw [← hnb]
    exact hfin

/-- C3: along any ingestion run from the fresh simulator whose input
records carry no `previous` of their own, followed by the end-of-stream
finalization, every event in the accumulated output has a back-reference
depth of at most one: its `previous`, when present, itself carries no
`previous`. -/
theorem claim_C3 (ops : List Op) (hops : ∀ op ∈ ops, op.inputPrevFree = true)
    (settings : Option Settings) (s1 : SimState)
    (h : runOps simInit ops = .ok s1) :
    ∀ e ∈ (finalBasal settings s1).events, e.flatPrev = true := by
have hinit : PrevInvariant simInit := by
  constructor
  · intro e he
    simp [simInit] at he
  · intro cb hcb
    simp [simInit] at hcb
exact (prevInvariant_finalBasal settings s1
  (prevInvariant_runOps ops simInit s1 hinit hops h)).1

/-- Witness for C3: a single prev-free scheduled segment ingested from the
fresh simulator and finalized; the one event this run emits — the
annotated duration-0 segment — is depth-at-most-one. -/
theorem claim_C3_witness :
    Event.flatPrev (Event.basal (((mkSched 0 1).withDuration 0).annotateEvent
        "basal/unknown-duration")) = true :=
claim_C3 [Op.basal (mkSched 0 1)] (by decide) none
  (mkState (some (mkSched 0 1)) (some 0)) rfl
  (Event.basal (((mkSched 0 1).withDuration 0).annotateEvent "basal/unknown-duration"))
  (by decide)

end Tandem

theorem mem_orderedInsertBy (f : α → Int) (c a : α) (l : List α) :
    a ∈ orderedInsertBy f c l ↔ a = c ∨ a ∈ l := by
induction l with
| nil => simp [orderedInsertBy]
| cons b l ih =>
  unfold orderedInsertBy
  split_ifs
  · simp [List.mem_cons]
  · simp only [List.mem_cons, ih]
    tauto

theorem mem_sortListBy (f : α → Int) (a : α) (l : List α) :
    a ∈ sortListBy f l ↔ a ∈ l := by
induction l with
| nil => simp [sortListBy]
| cons b l ih =>
  show a ∈ orderedInsertBy f b (sortListBy f l) ↔ _
  rw [mem_orderedInsertBy]
  simp [ih]

theorem pairwise_orderedInsertBy (f : α → Int) (c : α) (l : List α)
    (h : l.Pairwise (fun a b => f a ≤ f b)) :
    (orderedInsertBy f c l).Pairwise (fun a b => f a ≤ f b) := by
induction l with
| nil => simp [orderedInsertBy]
| cons b l ih =>
  unfold orderedInsertBy
  split_ifs with hcb
  · refine List.Pairwise.cons ?_ h
    intro x hx
    rcases List.mem_cons.mp hx with rfl | hx
    · exact hcb
    · exact le_trans hcb (List.rel_of_pairwise_cons h hx)
  · have hbl := List.pairwise_cons.mp h
    refine List.Pairwise.cons ?_ (ih hbl.2)
    intro x hx
    rcases (mem_orderedInsertBy f c x l).mp hx with rfl | hx
    · exact le_of_lt (not_le.mp hcb)
    · exact hbl.1 x hx

theorem pairwise_sortListBy (f : α → Int) (l : List α) :
    (sortListBy f l).Pairwise (fun a b => f a ≤ f b) := by
induction l with
| nil => simp [sortListBy]
| cons b l ih => exact pairwise_orderedInsertBy f b (sortListBy f l) ih

namespace Tandem

theorem keepEvent_eq_keptBySpec (e : Event) : keepEvent e = keptBySpec e := by
cases e with
| bolus b =>
  cases hx : b.expectedNormal <;> simp [keepEvent, keptBySpec, jsFalsy, hx]
| wizard t bol =>
  cases bol with
  | none => rfl
  | some b =>
    cases hx : b.expectedNormal <;> simp [keepEvent, keptBySpec, jsFalsy, hx]
| basal b => rfl
| alarm t => rfl
| changeDeviceTime t => rfl
| changeReservoir t => rfl
| resume t => rfl
| pumpSettings t => rfl
| smbg t => rfl
| suspend t => rfl

/-- C6 (amended): `getEvents` keeps exactly the accumulated events other
than the boluses — and wizards with an embedded bolus — whose declared
immediate volume is zero and whose `expectedNormal` amendment is absent
*or zero* (the output filter tests the amendment for JS truthiness, so a
zero-valued amendment is also dropped). -/
theorem claim_C6 (events : List Event) (e : Event) :
    e ∈ getEvents events ↔ e ∈ events ∧ keptBySpec e = true := by
unfold getEvents
rw [mem_sortListBy, List.mem_filter, keepEvent_eq_keptBySpec]

/-- Counterexample to C6 as stated: a zero-volume bolus that carries an
`expectedNormal` amendment of 0 (a termination that missed nothing) is
dropped from the output, although the claim says any bolus carrying
`expectedNormal` is kept. -/
theorem claim_C6_counterexample :
    runOps simInit [Op.bolus (mkBolus 0 (some 0) (some 0))]
        = .ok { simInit with events := [Event.bolus (mkBolus 0 (some 0) (some 0))],
                             currTimestamp := some 0 } ∧
      (mkBolus 0 (some 0) (some 0)).expectedNormal ≠ none ∧
      getEvents [Event.bolus (mkBolus 0 (some 0) (some 0))] = [] :=
⟨rfl, by decide, rfl⟩

end Tandem

namespace Insulet

theorem pendingSuspend_foldl (l : List SuspendRec) (s0 : StatusState) (p : SuspendRec)
    (h : s0.pendingSuspend = some p) :
    (List.foldl ingestSuspend s0 l).pendingSuspend = some p := by
induction l generalizing s0 with
| nil => exact h
| cons r l ih =>
  rw [List.foldl_cons]
  exact ih (ingestSuspend s0 r) (by simp [ingestSuspend, h])

/-- C7: after one or more consecutive suspends ingested from a state with
no pending suspend, a resume — or a fabricated pod-activation resume —
carries the *first* suspend of the run as its `previous`, the anchor is
cleared, and a subsequent resume carries no `previous`. -/
theorem claim_C7 (st : StatusState) (h : st.pendingSuspend = none)
    (first : SuspendRec) (rest : List SuspendRec) (t tPod t2 : Int)
    (run : StatusState)
    (hrun : run = List.foldl ingestSuspend (ingestSuspend st first) rest) :
    (ingestResume run t).events = run.events ++ [.resume ⟨t, some first⟩] ∧
      (ingestResume run t).pendingSuspend = none ∧
      (ingestPodActivation run tPod).events = run.events ++ [.resume ⟨tPod, some first⟩] ∧
      (ingestResume (ingestResume run t) t2).events
        = run.events ++ [.resume ⟨t, some first⟩, .resume ⟨t2, none⟩] := by
have hp : run.pendingSuspend = some first := by
  rw [hrun]
  exact pendingSuspend_foldl rest _ first (by simp [ingestSuspend, h])
refine ⟨?_, rfl, ?_, ?_⟩
· simp [ingestResume, hp]
· simp [ingestPodActivation, hp]
· simp [ingestResume, hp]

/-- Witness for C7: two suspends (times 100 and 200) then a resume at 300,
a pod activation at 300 and a second resume at 400; the resume anchors to
the suspend at time 100. -/
theorem claim_C7_witness :
    (ingestResume ⟨[.suspend ⟨100, "manual"⟩, .suspend ⟨200, "auto"⟩],
          some ⟨100, "manual"⟩⟩ 300).events
        = [.suspend ⟨100, "manual"⟩, .suspend ⟨200, "auto"⟩]
            ++ [.resume ⟨300, some ⟨100, "manual"⟩⟩] ∧
      (ingestResume ⟨[.suspend ⟨100, "manual"⟩, .suspend ⟨200, "auto"⟩],
          some ⟨100, "manual"⟩⟩ 300).pendingSuspend = none ∧
      (ingestPodActivation ⟨[.suspend ⟨100, "manual"⟩, .suspend ⟨200, "auto"⟩],
          some ⟨100, "manual"⟩⟩ 300).events
        = [.suspend ⟨100, "manual"⟩, .suspend ⟨200, "auto"⟩]
            ++ [.resume ⟨300, some ⟨100, "manual"⟩⟩] ∧
      (ingestResume (ingestResume ⟨[.suspend ⟨100, "manual"⟩, .suspend ⟨200, "auto"⟩],
          some ⟨100, "manual"⟩⟩ 300) 400).events
        = [.suspend ⟨100, "manual"⟩, .suspend ⟨200, "auto"⟩]
            ++ [.resume ⟨300, some ⟨100, "manual"⟩⟩, .resume ⟨400, none⟩] :=
claim_C7 ⟨[], none⟩ rfl ⟨100, "manual"⟩ [⟨200, "auto"⟩] 300 300 400
  ⟨[.suspend ⟨100, "manual"⟩, .suspend ⟨200, "auto"⟩], some ⟨100, "manual"⟩⟩ rfl

/-- C8: the combined dose 1.3 immediate / 1.4 extended / duration 0
followed by terminations (missed 2.7, remaining 0) then (missed 1.4,
remaining 3600000): the first termination settles the immediate phase
(`expectedNormal = 1.3 + 2.7 = 4.0`) and the second the extended phase
(`expectedExtended = 1.4 + 1.4 = 2.8`,
`expectedDuration = 0 + 3600000 = 3600000`). -/
theorem claim_C8 :
    (ingestTermination (ingestBolus matcherInit dualBolus) (27/10) 0).events
        = [{ dualBolus with expectedNormal := some 4 }] ∧
      (ingestTermination (ingestTermination (ingestBolus matcherInit dualBolus)
            (27/10) 0) (14/10) 3600000).events
        = [{ dualBolus with
              expectedNormal := some 4,
              expectedExtended := some (14/5),
              expectedDuration := some 3600000 }] := by
constructor
· show [amendPhase .immediate (27/10) 0 dualBolus] = _
  simp only [amendPhase, dualBolus, Option.getD, List.cons.injEq, and_true]
  norm_num
· show [amendPhase .extended (14/10) 3600000 (amendPhase .immediate (27/10) 0 dualBolus)] = _
  simp only [amendPhase, dualBolus, Option.getD, List.cons.injEq, and_true]
  norm_num

end Insulet

namespace TZ

/-- C9 (amended): on every clock-change record whose 15-minute-rounded
delta is within the ±1560-minute defensive bound, the accumulated offset
is adjusted by the clock delta rounded to the nearest *60-minute* quantum
(not the 15-minute quantum the 15-minute rounding is only the bound gate
for); beyond the bound the adjustment is a no-op.  In particular every
adjustment is a whole number of hours. -/
theorem claim_C9 (offset : Int) (e : TimeChange) :
    (|findOffsetDifference e| ≤ MAX_DIFF →
      adjustCurrentOffset offset e = offset + roundToQuantum 60 e.deltaMinutes) ∧
      (MAX_DIFF < |findOffsetDifference e| → adjustCurrentOffset offset e = offset) ∧
      ∃ k : Int, adjustCurrentOffset offset e = offset + 60 * k := by
unfold adjustCurrentOffset
by_cases hb : |findOffsetDifference e| ≤ MAX_DIFF
· rw [if_pos hb]
  refine ⟨fun _ => rfl, fun hlt => absurd hb (not_le.mpr hlt),
    jsRound (e.deltaMinutes / ((60 : Int) : Rat)), ?_⟩
  unfold roundToQuantum
  ring
· rw [if_neg hb]
  exact ⟨fun hle => absurd hle hb, fun _ => rfl, 0, by ring⟩

/-- Counterexample to C9 as stated: a 45-minute clock change (a
quarter-hour-offset zone) passes the bound gate with a 15-minute-rounded
delta of 45, yet the offset is adjusted by 60, not by 45. -/
theorem claim_C9_counterexample :
    adjustCurrentOffset 0 ⟨0, 0, 45⟩ = 60 ∧
      findOffsetDifference ⟨0, 0, 45⟩ = 45 ∧ (60 : Int) ≠ 0 + 45 := by
have h15 : (45 : Rat) / ((15 : Int) : Rat) = Rat.divInt 3 1 := by
  rw [Rat.divInt_eq_div]
  norm_num
have h60 : (45 : Rat) / ((60 : Int) : Rat) = Rat.divInt 3 4 := by
  rw [Rat.divInt_eq_div]
  norm_num
have e1 : findOffsetDifference ⟨0, 0, 45⟩ = 45 := by
  unfold findOffsetDifference roundToQuantum
  rw [show (⟨0, 0, 45⟩ : TimeChange).deltaMinutes = (45 : Rat) from rfl, h15]
  decide
have e2 : roundToQuantum 60 (45 : Rat) = 60 := by
  unfold roundToQuantum
  rw [h60]
  decide
refine ⟨?_, e1, by decide⟩
unfold adjustCurrentOffset
rw [e1, show (⟨0, 0, 45⟩ : TimeChange).deltaMinutes = (45 : Rat) from rfl, e2]
norm_num [MAX_DIFF]

/-- Witness for C9: the 45-minute change is within the bound and adjusted
by the 60-minute-rounded delta; a 3000-minute change is beyond the bound
and leaves the offset alone; and the in-bound adjustment is a whole
number of hours. -/
theorem claim_C9_witness :
    adjustCurrentOffset 0 ⟨0, 0, 45⟩ = 0 + roundToQuantum 60 (45 : Rat) ∧
      adjustCurrentOffset 7 ⟨0, 0, 3000⟩ = 7 ∧
      ∃ k : Int, adjustCurrentOffset 0 ⟨0, 0, 45⟩ = 0 + 60 * k := by
have hb1 : |findOffsetDifference (⟨0, 0, 45⟩ : TimeChange)| ≤ MAX_DIFF := by
  have h15 : (45 : Rat) / ((15 : Int) : Rat) = Rat.divInt 3 1 := by
    rw [Rat.divInt_eq_div]
    norm_num
  unfold findOffsetDifference roundToQuantum
  rw [show (⟨0, 0, 45⟩ : TimeChange).deltaMinutes = (45 : Rat) from rfl, h15]
  decide
have hb2 : MAX_DIFF < |findOffsetDifference (⟨0, 0, 3000⟩ : TimeChange)| := by
  have h15 : (3000 : Rat) / ((15 : Int) : Rat) = Rat.divInt 200 1 := by
    rw [Rat.divInt_eq_div]
    norm_num
  unfold findOffsetDifference roundToQuantum
  rw [show (⟨0, 0, 3000⟩ : TimeChange).deltaMinutes = (3000 : Rat) from rfl, h15]
  decide
exact ⟨(claim_C9 0 ⟨0, 0, 45⟩).1 hb1, (claim_C9 7 ⟨0, 0, 3000⟩).2.1 hb2,
  (claim_C9 0 ⟨0, 0, 45⟩).2.2⟩

theorem buildLoop_no_match (cs : List TimeChange) (co ci : Int) (pt : Rat) (idx : Int)
    (hub : ∀ c ∈ cs, c.index ≤ ci)
    (hdesc : cs.Pairwise (fun a b => b.index ≤ a.index))
    (hm : ci ≤ idx ∨ ∃ c ∈ cs, idx = c.index) :
    ∀ iv ∈ buildLoop co ci pt cs, matchesIndex iv idx = false := by
induction cs generalizing co ci pt with
| nil =>
  intro iv hiv
  simp only [buildLoop, List.mem_singleton] at hiv
  subst hiv
  have hci : ci ≤ idx := by
    rcases hm with h | ⟨c, hc, _⟩
    · exact h
    · simp at hc
  simp [matchesIndex]
  omega
| cons c cs ih =>
  intro iv hiv
  have hfacts : ci ≤ idx ∨ idx = c.index ∨ idx ≤ c.index := by
    rcases hm with h | ⟨c', hc', rfl⟩
    · exact Or.inl h
    · rcases List.mem_cons.mp hc' with rfl | hc'
      · exact Or.inr (Or.inl rfl)
      · exact Or.inr (Or.inr (List.rel_of_pairwise_cons hdesc hc'))
  rcases List.mem_cons.mp hiv with rfl | hiv
  · simp [matchesIndex]
    omega
  · have hub' : ∀ c'' ∈ cs, c''.index ≤ c.index :=
      fun c'' h'' => List.rel_of_pairwise_cons hdesc h''
    have hdesc' := (List.pairwise_cons.mp hdesc).2
    have hm' : c.index ≤ idx ∨ ∃ c' ∈ cs, idx = c'.index := by
      rcases hm with h | ⟨c', hc', rfl⟩
      · exact Or.inl (le_trans (hub c (List.mem_cons_self c cs)) h)
      · rcases List.mem_cons.mp hc' with rfl | hc'
        · exact Or.inl (le_refl _)
        · exact Or.inr ⟨c', hc', rfl⟩
    exact ih _ _ _ hub' hdesc' hm' iv hiv

theorem buildIntervals_no_match (changes : List TimeChange)
    (mostRecent firstTime : Rat) (firstOffset : Int) (idx : Int)
    (hidx : ∃ c ∈ changes, idx = c.index) :
    ∀ iv ∈ buildIntervals mostRecent firstTime firstOffset changes,
      matchesIndex iv idx = false := by
unfold buildIntervals
cases hs : (sortListBy (fun c => c.index) changes).reverse with
| nil =>
  intro iv hiv
  simp at hiv
| cons c0 rest =>
  have hsorted : (c0 :: rest).Pairwise (fun a b => b.index ≤ a.index) := by
    rw [← hs]
    exact List.pairwise_reverse.mpr (pairwise_sortListBy _ _)
  obtain ⟨c, hc, rfl⟩ := hidx
  have hcmem : c ∈ c0 :: rest := by
    rw [← hs, List.mem_reverse, mem_sortListBy]
    exact hc
  have hle : c.index ≤ c0.index := by
    rcases List.mem_cons.mp hcmem with rfl | hmem
    · exact le_refl _
    · exact List.rel_of_pairwise_cons hsorted hmem
  intro iv hiv
  rcases List.mem_cons.mp hiv with rfl | hiv
  · simp [matchesIndex]
    omega
  · refine buildLoop_no_match rest _ c0.index firstTime c.index ?_ ?_ ?_ iv hiv
    · exact fun c'' h'' => List.rel_of_pairwise_cons hsorted h''
    · exact (List.pairwise_cons.mp hsorted).2
    · rcases List.mem_cons.mp hcmem with rfl | hmem
      · exact Or.inl (le_refl _)
      · exact Or.inr ⟨c, hmem, rfl⟩

/-- C10: with clock-change records present, the index-based lookup uses
strictly exclusive interval bounds, so a query whose sequence index equals
the index of any clock-change record matches no interval and the lookup
returns nothing rather than a time/offset pair. -/
theorem claim_C10 (changes : List TimeChange) (mostRecent firstTime : Rat)
    (firstOffset : Int) (datetime : Rat) (c : TimeChange) (hc : c ∈ changes) :
    lookupWithIndex (buildIntervals mostRecent firstTime firstOffset changes)
        datetime c.index = none := by
unfold lookupWithIndex
rw [List.find?_eq_none.mpr (fun iv hiv => by
  rw [buildIntervals_no_match changes mostRecent firstTime firstOffset c.index
    ⟨c, hc, rfl⟩ iv hiv]
  exact Bool.false_ne_true)]

/-- Witness for C10: three clock changes with indices 5, 9, 2; a lookup at
index 5 — the index of one of the changes — returns nothing. -/
theorem claim_C10_witness :
    lookupWithIndex
        (buildIntervals 99999 500 60 [⟨5, 100, 45⟩, ⟨9, 300, -120⟩, ⟨2, 50, 0⟩])
        777 (⟨5, 100, 45⟩ : TimeChange).index = none :=
claim_C10 [⟨5, 100, 45⟩, ⟨9, 300, -120⟩, ⟨2, 50, 0⟩] 99999 500 60 777
  ⟨5, 100, 45⟩ (by decide)

end TZ
